import Mathlib

/-!
Verification of the gbkDetect repository (gbkDetect.py / gbkDetect_CN.py).

Python strings are modelled as `List Char` (sequences of Unicode code
points), byte strings as `List Nat`.  A Python codec (the pair of
`str.encode(enc, errors='strict')` / `bytes.decode(enc, errors='strict')`
operations for one encoding label) is modelled as a `Codec`: `none`
models a raised `UnicodeError`.
-/

namespace GbkDetect

/-- `is_chinese_character` from gbkDetect.py lines 19-23:
`return '\u4e00' <= char <= '\u9fff'`. -/
def is_chinese_character (c : Char) : Bool :=
  decide ('\u4e00' ≤ c) && decide (c ≤ '\u9fff')

/-- `has_chinese_text` from gbkDetect.py lines 25-32: scan the text,
return `true` on the first Chinese character, else `false`. -/
def has_chinese_text : List Char → Bool
  | [] => false
  | c :: rest => if is_chinese_character c then true else has_chinese_text rest

/-- Python `text.split('\n')`: split on every newline; the result is never
empty (the empty text yields one empty line). -/
def splitLines : List Char → List (List Char)
  | [] => [[]]
  | c :: rest =>
    if c = '\n' then [] :: splitLines rest
    else
      match splitLines rest with
      | l :: ls => (c :: l) :: ls
      | [] => [[c]]

/-- `sum(1 for c in context if is_chinese_character(c))`. -/
def countChinese (l : List Char) : Nat :=
  (l.filter is_chinese_character).length

/-- The reason codes attached to findings in gbkDetect.py. -/
inductive Reason where
  | COMMON_PATTERN
  | ENCODING_MISMATCH
  | INVALID_ENCODING
  | ISOLATED_CHARACTER
deriving DecidableEq, Repr

/-- One entry of the `garbled_chars` result list:
`(line_num, i, char, reason)`. -/
structure Finding where
  line : Nat
  col : Nat
  ch : Char
  reason : Reason
deriving DecidableEq, Repr

/-- A Python codec for one encoding label: `enc c = none` models
`char.encode(label, errors='strict')` raising `UnicodeError`, and
`dec bs = none` models `bs.decode(label, errors='strict')` raising. -/
structure Codec where
  enc : Char → Option (List Nat)
  dec : List Nat → Option (List Char)

/-- The `garbled_patterns` list of gbkDetect.py lines 42-47. -/
def garbledPatterns : List (List Char) :=
  ["\u951f\u65a4\u62f7".data, "\u9518".data, "\u70eb\u70eb\u70eb".data,
   "\u5c6f\u5c6f\u5c6f".data, "\ufffd\ufffd".data, "\ufffd".data, "?".data]

/-- gbkDetect.py lines 57-64: the round-trip check for one Chinese
character.  `try: encoded = char.encode(...); decoded = encoded.decode(...);
if decoded != char: MISMATCH  except UnicodeError: INVALID`. -/
def roundTripFinding (cod : Codec) (ln i : Nat) (c : Char) : Option Finding :=
  match cod.enc c with
  | none => some ⟨ln, i, c, Reason.INVALID_ENCODING⟩
  | some bs =>
    match cod.dec bs with
    | none => some ⟨ln, i, c, Reason.INVALID_ENCODING⟩
    | some s => if s ≠ [c] then some ⟨ln, i, c, Reason.ENCODING_MISMATCH⟩ else none

/-- gbkDetect.py lines 66-69: `for pattern in garbled_patterns:
if pattern in line[i:i+len(pattern)]: append COMMON_PATTERN`.  A slice of
length at most `len(pattern)` contains `pattern` exactly when `pattern` is
an infix of it. -/
def patternFindings (ln i : Nat) (c : Char) (line : List Char) : List Finding :=
  (garbledPatterns.filter
    (fun p => decide (p <:+: (line.drop i).take p.length))).map
    (fun _ => ⟨ln, i, c, Reason.COMMON_PATTERN⟩)

/-- gbkDetect.py line 73: `line[max(0,i-2):min(len(line),i+3)]` (natural
subtraction gives the `max(0, i-2)` clamp; `take` clamps the upper end). -/
def contextWindow (line : List Char) (i : Nat) : List Char :=
  (line.drop (i - 2)).take (i + 3 - (i - 2))

/-- The findings contributed by the character `c` at column `i` of `line`
(gbkDetect.py lines 53-76): the round-trip check and the pattern check
under the first `is_chinese_character` guard, the isolation check under
the second. -/
def charFindings (cod : Codec) (line : List Char) (ln i : Nat) (c : Char) :
    List Finding :=
  (if is_chinese_character c then
      (roundTripFinding cod ln i c).toList ++ patternFindings ln i c line
    else []) ++
  (if is_chinese_character c then
      if countChinese (contextWindow line i) < 2 then
        [⟨ln, i, c, Reason.ISOLATED_CHARACTER⟩]
      else []
    else [])

/-- All findings of one line: `for i, char in enumerate(line): ...`. -/
def lineFindings (cod : Codec) (ln : Nat) (line : List Char) : List Finding :=
  line.enum.flatMap (fun p => charFindings cod line ln p.1 p.2)

/-- `find_chinese_garbled_chars` of gbkDetect.py lines 34-80: returns the
pair `(garbled_chars, chinese_chars_in_line)`; lines are numbered from 1. -/
def find_chinese_garbled_chars (cod : Codec) (text : List Char) :
    List Finding × List (Nat × Nat) :=
  let lines := splitLines text
  (lines.enum.flatMap (fun p => lineFindings cod (p.1 + 1) p.2),
   lines.enum.map (fun p => (p.1 + 1, countChinese p.2)))

/-- Python `str.lower()` (ASCII-relevant part, as applied to encoding
labels such as "GB18030"). -/
def pyLower (s : List Char) : List Char :=
  s.map Char.toLower

/-- `convert_to_gbk` of gbkDetect.py lines 82-104 (identical logic in
gbkDetect_CN.py lines 54-76).  I/O and codec operations that can raise are
modelled as `Option`-valued parameters (`none` = the operation raised):
`detected` is the result of `detect_encoding`, `readLossy e` models
`codecs.open(path, 'r', encoding=e, errors='ignore').read()`, and
`writeGbk t` models writing `t` with `codecs.open(path, 'w', 'gbk',
errors='ignore')`.  The surrounding `try/except Exception` turns any raise
into the return value `False`. -/
def convert_to_gbk (detected : Option (List Char))
    (readLossy : List Char → Option (List Char))
    (writeGbk : List Char → Option Unit) : Bool :=
  match detected with
  | none => false
  | some enc =>
    match readLossy enc with
    | none => false
    | some content =>
      match writeGbk content with
      | some _ => true
      | none => false

/-- The fallback encoding list of gbkDetect.py line 169. -/
def fallbackEncodings : List (List Char) :=
  ["utf-8".data, "gbk".data, "gb18030".data, "big5".data]

/-- The `for enc in [...]` / `else:` loop of gbkDetect.py lines 168-179:
try each fallback encoding in order, returning the decoded content and
the encoding used for the first that decodes without raising. -/
def tryFallbacks (dec : List Char → List Nat → Option (List Char))
    (raw : List Nat) : List (List Char) → Option (List Char × List Char)
  | [] => none
  | e :: rest =>
    match dec e raw with
    | some t => some (t, e)
    | none => tryFallbacks dec raw rest

/-- gbkDetect.py lines 164-179: decode the raw bytes under the detected
(already lower-cased) encoding; on a decode error, run the fallback loop.
`dec e raw = none` models `raw.decode(e)` raising `UnicodeDecodeError`. -/
def decodeContent (dec : List Char → List Nat → Option (List Char))
    (detected : List Char) (raw : List Nat) : Option (List Char × List Char) :=
  match dec detected raw with
  | some t => some (t, detected)
  | none => tryFallbacks dec raw fallbackEncodings

/-- The per-file outcome of `process_cpp_files` in gbkDetect.py. -/
inductive FileOutcome where
  | skippedNoEncoding
  | skippedUndecodable
  | report (encodingUsed : List Char) (content : List Char)
deriving DecidableEq, Repr

/-- One iteration of the `for file_path in cpp_files` loop of gbkDetect.py
lines 145-209: detect (a `none` detection result skips the file), lower-case
the label, decode with fallback (exhaustion skips the file), then report on
the decoded content. -/
def processOne (detected : Option (List Char))
    (dec : List Char → List Nat → Option (List Char)) (raw : List Nat) :
    FileOutcome :=
  match detected with
  | none => FileOutcome.skippedNoEncoding
  | some e =>
    match decodeContent dec (pyLower e) raw with
    | none => FileOutcome.skippedUndecodable
    | some (t, used) => FileOutcome.report used t

/-- The whole `for` loop of gbkDetect.py `process_cpp_files`: each file is
processed independently and a per-file failure (`continue`) moves on to the
next file. -/
def processBatch (dec : List Char → List Nat → Option (List Char)) :
    List (Option (List Char) × List Nat) → List FileOutcome
  | [] => []
  | f :: rest => processOne f.1 dec f.2 :: processBatch dec rest

/-- The action taken on one file by gbkDetect_CN.py `process_cpp_files`. -/
inductive CNAction where
  | skipped
  | analyzed (garbledFound : Bool)
  | converted (ok : Bool)
deriving DecidableEq, Repr

/-- The per-file flow of gbkDetect_CN.py lines 116-146, as a function from
the detection result and the file's current bytes to the action taken and
the bytes afterwards.  A label whose lower-casing starts with "gb" or
"windows" routes the file to `check_gbk_file_for_garbled_text` (which only
reads, modelled by `analyzeFn`); otherwise `convert_to_gbk` runs and
rewrites the file on success (`convertFn bytes = some newBytes`) or leaves
it as-is on failure. -/
def processFileCN (detected : Option (List Char)) (bytes : List Nat)
    (analyzeFn : List Nat → Bool) (convertFn : List Nat → Option (List Nat)) :
    CNAction × List Nat :=
  match detected with
  | none => (CNAction.skipped, bytes)
  | some e =>
    let le := pyLower e
    if ("gb".data.isPrefixOf le || "windows".data.isPrefixOf le) then
      (CNAction.analyzed (analyzeFn bytes), bytes)
    else
      match convertFn bytes with
      | some newBytes => (CNAction.converted true, newBytes)
      | none => (CNAction.converted false, bytes)

/-- UTF-8 continuation byte test. -/
def isCont (b : Nat) : Bool :=
  decide (0x80 ≤ b) && decide (b ≤ 0xBF)

/-- Standard UTF-8 encoding of one Unicode scalar value.  Python's
`char.encode('utf-8', errors='strict')` raises only on lone surrogates,
which Unicode scalar values (`Char`) exclude, so encoding always
succeeds here. -/
def utf8EncodeChar (c : Char) : List Nat :=
  let n := c.toNat
  if n < 0x80 then [n]
  else if n < 0x800 then
    [0xC0 + n / 0x40, 0x80 + n % 0x40]
  else if n < 0x10000 then
    [0xE0 + n / 0x1000, 0x80 + n / 0x40 % 0x40, 0x80 + n % 0x40]
  else
    [0xF0 + n / 0x40000, 0x80 + n / 0x1000 % 0x40,
     0x80 + n / 0x40 % 0x40, 0x80 + n % 0x40]

/-- Strict UTF-8 decoding of a byte sequence, as Python's
`bytes.decode('utf-8', errors='strict')`: rejects truncated sequences,
bad continuation bytes, overlong encodings, surrogates and out-of-range
code points. -/
def utf8Decode : List Nat → Option (List Char)
  | [] => some []
  | b :: bs =>
    if b < 0x80 then
      (utf8Decode bs).map (fun s => Char.ofNat b :: s)
    else if b < 0xC2 then none
    else if b < 0xE0 then
      match bs with
      | b1 :: rest =>
        if isCont b1 then
          (utf8Decode rest).map
            (fun s => Char.ofNat ((b - 0xC0) * 0x40 + (b1 - 0x80)) :: s)
        else none
      | [] => none
    else if b < 0xF0 then
      match bs with
      | b1 :: b2 :: rest =>
        if isCont b1 && isCont b2 then
          let n := (b - 0xE0) * 0x1000 + (b1 - 0x80) * 0x40 + (b2 - 0x80)
          if n < 0x800 || (decide (0xD800 ≤ n) && decide (n ≤ 0xDFFF)) then none
          else (utf8Decode rest).map (fun s => Char.ofNat n :: s)
        else none
      | _ => none
    else if b < 0xF5 then
      match bs with
      | b1 :: b2 :: b3 :: rest =>
        if isCont b1 && isCont b2 && isCont b3 then
          let n := (b - 0xF0) * 0x40000 + (b1 - 0x80) * 0x1000 +
            (b2 - 0x80) * 0x40 + (b3 - 0x80)
          if n < 0x10000 || decide (0x110000 ≤ n) then none
          else (utf8Decode rest).map (fun s => Char.ofNat n :: s)
        else none
      | _ => none
    else none

/-- The `Codec` for the encoding label "utf-8". -/
def utf8Codec : Codec :=
  ⟨fun c => some (utf8EncodeChar c), utf8Decode⟩

/-- A simple total codec (each code point to its own number) used to
instantiate codec-parametric theorems at concrete inputs. -/
def idCodec : Codec :=
  ⟨fun c => some [c.toNat], fun bs => some (bs.map Char.ofNat)⟩

/-! ## Helper lemmas -/

lemma is_chinese_iff (c : Char) :
    is_chinese_character c = true ↔ 0x4E00 ≤ c.toNat ∧ c.toNat ≤ 0x9FFF := by
  unfold is_chinese_character
  simp only [Bool.and_eq_true, decide_eq_true_eq, Char.le_def]
  exact Iff.rfl

lemma has_chinese_text_iff (l : List Char) :
    has_chinese_text l = true ↔ ∃ c ∈ l, is_chinese_character c = true := by
  induction l with
  | nil => simp [has_chinese_text]
  | cons c rest ih =>
    unfold has_chinese_text
    by_cases h : is_chinese_character c = true
    · simp [h]
    · rw [if_neg h, ih]
      constructor
      · rintro ⟨x, hx, hcx⟩
        exact ⟨x, List.mem_cons_of_mem _ hx, hcx⟩
      · rintro ⟨x, hx, hcx⟩
        rcases List.mem_cons.mp hx with hx | hx
        · exact absurd (hx ▸ hcx) h
        · exact ⟨x, hx, hcx⟩

lemma splitLines_ne_nil (t : List Char) : splitLines t ≠ [] := by
  induction t with
  | nil => simp [splitLines]
  | cons c rest ih =>
    unfold splitLines
    by_cases h : c = '\n'
    · simp [h]
    · simp only [h, if_neg, not_false_iff]
      cases hs : splitLines rest with
      | nil => simp
      | cons l ls => simp

lemma mem_of_mem_splitLines {t line : List Char} {c : Char}
    (hl : line ∈ splitLines t) (hc : c ∈ line) : c ∈ t := by
  induction t generalizing line with
  | nil =>
    simp [splitLines] at hl
    subst hl
    exact absurd hc (List.not_mem_nil c)
  | cons c0 rest ih =>
    unfold splitLines at hl
    by_cases h : c0 = '\n'
    · simp only [h, if_pos] at hl
      rcases List.mem_cons.mp hl with hl | hl
      · subst hl
        exact absurd hc (List.not_mem_nil c)
      · exact List.mem_cons_of_mem _ (ih hl hc)
    · simp only [h, if_neg, not_false_iff] at hl
      cases hs : splitLines rest with
      | nil => exact absurd hs (splitLines_ne_nil rest)
      | cons l ls =>
        rw [hs] at hl
        rcases List.mem_cons.mp hl with hl | hl
        · subst hl
          rcases List.mem_cons.mp hc with hc | hc
          · exact hc ▸ List.mem_cons_self _ _
          · exact List.mem_cons_of_mem _ (ih (hs ▸ List.mem_cons_self l ls) hc)
        · exact List.mem_cons_of_mem _ (ih (hs ▸ List.mem_cons_of_mem l hl) hc)

lemma tryFallbacks_eq_none_iff (dec : List Char → List Nat → Option (List Char))
    (raw : List Nat) (l : List (List Char)) :
    tryFallbacks dec raw l = none ↔ ∀ e ∈ l, dec e raw = none := by
  induction l with
  | nil => simp [tryFallbacks]
  | cons e rest ih =>
    unfold tryFallbacks
    cases hd : dec e raw with
    | some t => simp [hd]
    | none => simp [hd, ih]

lemma tryFallbacks_first (dec : List Char → List Nat → Option (List Char))
    (raw : List Nat) (l : List (List Char)) (k : Nat) (hk : k < l.length)
    (t : List Char) (ht : dec (l.get ⟨k, hk⟩) raw = some t)
    (hbefore : ∀ j, (hj : j < k) → dec (l.get ⟨j, Nat.lt_trans hj hk⟩) raw = none) :
    tryFallbacks dec raw l = some (t, l.get ⟨k, hk⟩) := by
  induction l generalizing k with
  | nil => exact absurd hk (Nat.not_lt_zero k)
  | cons e rest ih =>
    cases k with
    | zero =>
      simp only [List.get] at ht
      unfold tryFallbacks
      rw [ht]
      rfl
    | succ k' =>
      have h0 : dec e raw = none := hbefore 0 (Nat.succ_pos k')
      unfold tryFallbacks
      rw [h0]
      exact ih k' (Nat.lt_of_succ_lt_succ hk) ht
        (fun j hj => hbefore (j + 1) (Nat.succ_lt_succ hj))

lemma mem_roundTrip_toList {cod : Codec} {ln i : Nat} {c : Char} {f : Finding} :
    f ∈ (roundTripFinding cod ln i c).toList ↔ roundTripFinding cod ln i c = some f := by
  simp [Option.mem_toList, Option.mem_def]

lemma roundTripFinding_cases (cod : Codec) (ln i : Nat) (c : Char) (f : Finding) :
    roundTripFinding cod ln i c = some f ↔
      (f = ⟨ln, i, c, Reason.INVALID_ENCODING⟩ ∧
        (cod.enc c = none ∨ ∃ bs, cod.enc c = some bs ∧ cod.dec bs = none)) ∨
      (f = ⟨ln, i, c, Reason.ENCODING_MISMATCH⟩ ∧
        ∃ bs s, cod.enc c = some bs ∧ cod.dec bs = some s ∧ s ≠ [c]) := by
  unfold roundTripFinding
  cases henc : cod.enc c with
  | none => simp [henc, eq_comm]
  | some bs =>
    cases hdec : cod.dec bs with
    | none => simp [henc, hdec, eq_comm]
    | some s =>
      by_cases hs : s = [c]
      · subst hs
        simp [henc, hdec]
      · simp [henc, hdec, hs, eq_comm]

lemma mem_patternFindings_iff (ln i : Nat) (c : Char) (line : List Char)
    (f : Finding) :
    f ∈ patternFindings ln i c line ↔
      f = ⟨ln, i, c, Reason.COMMON_PATTERN⟩ ∧
        ∃ p ∈ garbledPatterns, p <:+: (line.drop i).take p.length := by
  unfold patternFindings
  simp only [List.mem_map, List.mem_filter, decide_eq_true_eq]
  constructor
  · rintro ⟨p, ⟨hp, hocc⟩, hf⟩
    exact ⟨hf.symm, p, hp, hocc⟩
  · rintro ⟨hf, p, hp, hocc⟩
    exact ⟨p, ⟨hp, hocc⟩, hf.symm⟩

lemma mem_charFindings_iff (cod : Codec) (line : List Char) (ln i : Nat)
    (c : Char) (f : Finding) :
    f ∈ charFindings cod line ln i c ↔
      is_chinese_character c = true ∧
      ((f = ⟨ln, i, c, Reason.INVALID_ENCODING⟩ ∧
          (cod.enc c = none ∨ ∃ bs, cod.enc c = some bs ∧ cod.dec bs = none)) ∨
       (f = ⟨ln, i, c, Reason.ENCODING_MISMATCH⟩ ∧
          ∃ bs s, cod.enc c = some bs ∧ cod.dec bs = some s ∧ s ≠ [c]) ∨
       (f = ⟨ln, i, c, Reason.COMMON_PATTERN⟩ ∧
          ∃ p ∈ garbledPatterns, p <:+: (line.drop i).take p.length) ∨
       (f = ⟨ln, i, c, Reason.ISOLATED_CHARACTER⟩ ∧
          countChinese (contextWindow line i) < 2)) := by
  unfold charFindings
  cases hch : is_chinese_character c with
  | false => simp [hch]
  | true =>
    simp only [if_pos, List.mem_append, true_and]
    rw [mem_roundTrip_toList, roundTripFinding_cases, mem_patternFindings_iff]
    constructor
    · rintro (((h | h) | h) | h)
      · exact Or.inl h
      · exact Or.inr (Or.inl h)
      · exact Or.inr (Or.inr (Or.inl h))
      · by_cases hiso : countChinese (contextWindow line i) < 2
        · rw [if_pos hiso] at h
          exact Or.inr (Or.inr (Or.inr ⟨List.mem_singleton.mp h, hiso⟩))
        · rw [if_neg hiso] at h
          exact absurd h (List.not_mem_nil f)
    · rintro (h | h | h | ⟨hf, hiso⟩)
      · exact Or.inl (Or.inl (Or.inl h))
      · exact Or.inl (Or.inl (Or.inr h))
      · exact Or.inl (Or.inr h)
      · refine Or.inr ?_
        rw [if_pos hiso]
        exact List.mem_singleton.mpr hf

lemma charFindings_shape {cod : Codec} {line : List Char} {ln i : Nat}
    {c : Char} {f : Finding} (h : f ∈ charFindings cod line ln i c) :
    f.line = ln ∧ f.col = i ∧ f.ch = c ∧ is_chinese_character c = true := by
  obtain ⟨hch, hcase⟩ := (mem_charFindings_iff cod line ln i c f).mp h
  rcases hcase with ⟨hf, -⟩ | ⟨hf, -⟩ | ⟨hf, -⟩ | ⟨hf, -⟩ <;>
    exact ⟨by rw [hf], by rw [hf], by rw [hf], hch⟩

lemma mem_findings_iff (cod : Codec) (text : List Char) (f : Finding) :
    f ∈ (find_chinese_garbled_chars cod text).1 ↔
      ∃ (li : Nat) (row : List Char) (i : Nat) (c : Char),
        (splitLines text)[li]? = some row ∧ row[i]? = some c ∧
        f ∈ charFindings cod row (li + 1) i c := by
  show f ∈ (splitLines text).enum.flatMap
      (fun p => lineFindings cod (p.1 + 1) p.2) ↔ _
  rw [List.mem_flatMap]
  constructor
  · rintro ⟨p, hp, hf⟩
    unfold lineFindings at hf
    obtain ⟨q, hq, hf⟩ := List.mem_flatMap.mp hf
    exact ⟨p.1, p.2, q.1, q.2, List.mem_enum_iff_getElem?.mp hp,
      List.mem_enum_iff_getElem?.mp hq, hf⟩
  · rintro ⟨li, row, i, c, hrow, hc, hf⟩
    refine ⟨(li, row), List.mk_mem_enum_iff_getElem?.mpr hrow, ?_⟩
    unfold lineFindings
    exact List.mem_flatMap.mpr ⟨(i, c), List.mk_mem_enum_iff_getElem?.mpr hc, hf⟩

lemma findings_at_iff (cod : Codec) (text : List Char) (r : Reason)
    {ln col : Nat} {row : List Char} {c : Char} (hln : 1 ≤ ln)
    (hrow : (splitLines text)[ln - 1]? = some row)
    (hc : row[col]? = some c) :
    (⟨ln, col, c, r⟩ : Finding) ∈ (find_chinese_garbled_chars cod text).1 ↔
      (⟨ln, col, c, r⟩ : Finding) ∈ charFindings cod row ln col c := by
  rw [mem_findings_iff]
  constructor
  · rintro ⟨li, row', i, c', hrow', hc', hf⟩
    obtain ⟨h1, h2, h3, -⟩ := charFindings_shape hf
    have h1' : ln = li + 1 := h1
    have h2' : col = i := h2
    have h3' : c = c' := h3
    subst h2'
    have hli : li = ln - 1 := by omega
    subst hli
    rw [hrow'] at hrow
    have hroweq : row' = row := by injection hrow
    subst hroweq
    subst h3'
    rwa [← h1'] at hf
  · intro hf
    refine ⟨ln - 1, row, col, c, hrow, hc, ?_⟩
    have : ln - 1 + 1 = ln := by omega
    rwa [this]

/-! ## Claim theorems -/

/-- C7: for every code point `c`, `is_chinese_character c` returns true
if and only if `0x4E00 ≤ c ≤ 0x9FFF`, both bounds inclusive. -/
theorem is_chinese_character_iff_range (c : Char) :
    is_chinese_character c = true ↔ 0x4E00 ≤ c.toNat ∧ c.toNat ≤ 0x9FFF :=
  is_chinese_iff c

/-- C8: `has_chinese_text s` is true iff some code point of `s` lies in
U+4E00-U+9FFF, and it is monotonic under concatenation: if either half of
a concatenation has Chinese text then the whole does. -/
theorem has_chinese_text_spec (s a b : List Char) :
    (has_chinese_text s = true ↔
      ∃ c ∈ s, 0x4E00 ≤ c.toNat ∧ c.toNat ≤ 0x9FFF) ∧
    ((has_chinese_text a || has_chinese_text b) = true →
      has_chinese_text (a ++ b) = true) := by
  constructor
  · rw [has_chinese_text_iff]
    constructor
    · rintro ⟨c, hc, h⟩
      exact ⟨c, hc, (is_chinese_iff c).mp h⟩
    · rintro ⟨c, hc, h⟩
      exact ⟨c, hc, (is_chinese_iff c).mpr h⟩
  · intro h
    rw [Bool.or_eq_true] at h
    rw [has_chinese_text_iff]
    rcases h with h | h <;> obtain ⟨c, hc, hcc⟩ := (has_chinese_text_iff _).mp h
    · exact ⟨c, List.mem_append_left _ hc, hcc⟩
    · exact ⟨c, List.mem_append_right _ hc, hcc⟩

/-- Witness for C8 at concrete inputs: the concatenation hypothesis is
satisfiable and the conclusion holds there. -/
theorem has_chinese_text_spec_witness :
    (has_chinese_text "中".data || has_chinese_text "xy".data) = true ∧
      has_chinese_text ("中".data ++ "xy".data) = true :=
  ⟨by decide, (has_chinese_text_spec [] "中".data "xy".data).2 (by decide)⟩

/-- C6: `convert_to_gbk` fails whenever detection returns null, and it
returns success iff detection produced a label, the lossy read/decode
completed without raising, and the write completed without raising; any
raise yields failure. -/
theorem convert_to_gbk_spec (d : Option (List Char))
    (r : List Char → Option (List Char)) (w : List Char → Option Unit) :
    convert_to_gbk none r w = false ∧
    (convert_to_gbk d r w = true ↔
      ∃ e t, d = some e ∧ r e = some t ∧ w t = some ()) := by
  refine ⟨rfl, ?_⟩
  cases d with
  | none => simp [convert_to_gbk]
  | some e =>
    cases hr : r e with
    | none => simp [convert_to_gbk, hr]
    | some t =>
      cases hw : w t with
      | none => simp [convert_to_gbk, hr, hw]
      | some u => simp [convert_to_gbk, hr, hw]

/-- C5: when the detected encoding fails to decode, the fixed fallback
list utf-8, gbk, gb18030, big5 is tried in exactly that order and the
first success is used; the decode step yields nothing exactly when all
four fallbacks fail, and the batch loop always continues with the
remaining files. -/
theorem decode_fallback_spec (dec : List Char → List Nat → Option (List Char))
    (d : List Char) (raw : List Nat) (hfail : dec d raw = none) :
    (∀ k, (hk : k < fallbackEncodings.length) → ∀ t,
      dec (fallbackEncodings.get ⟨k, hk⟩) raw = some t →
      (∀ j, (hj : j < k) →
        dec (fallbackEncodings.get ⟨j, Nat.lt_trans hj hk⟩) raw = none) →
      decodeContent dec d raw = some (t, fallbackEncodings.get ⟨k, hk⟩)) ∧
    (decodeContent dec d raw = none ↔ ∀ e ∈ fallbackEncodings, dec e raw = none) ∧
    (∀ f (rest : List (Option (List Char) × List Nat)),
      processBatch dec (f :: rest) = processOne f.1 dec f.2 :: processBatch dec rest) := by
  refine ⟨?_, ?_, fun f rest => rfl⟩
  · intro k hk t ht hbefore
    unfold decodeContent
    rw [hfail]
    exact tryFallbacks_first dec raw fallbackEncodings k hk t ht hbefore
  · unfold decodeContent
    rw [hfail]
    exact tryFallbacks_eq_none_iff dec raw fallbackEncodings

/-- A decode function used to instantiate C5: only the label "gbk"
succeeds. -/
def gbkOnlyDec : List Char → List Nat → Option (List Char) :=
  fun e _ => if e = "gbk".data then some ['g'] else none

/-- Witness for C5 at concrete inputs: the detected label fails, utf-8
fails, gbk succeeds, and the result uses gbk. -/
theorem decode_fallback_spec_witness :
    decodeContent gbkOnlyDec "latin-1".data [255] = some (['g'], "gbk".data) :=
  (decode_fallback_spec gbkOnlyDec "latin-1".data [255] (by decide)).1
    1 (by decide) ['g'] (by decide)
    (fun j hj => by
      have hj0 : j = 0 := by omega
      subst hj0
      show gbkOnlyDec "utf-8".data [255] = none
      decide)

/-- C4: a file whose detected label, lower-cased, starts with "gb" or
"windows" is routed to the garbled-text analyzer, conversion is skipped,
and the file's bytes are unchanged. -/
theorem skip_conversion_on_gb_windows (e : List Char) (bytes : List Nat)
    (af : List Nat → Bool) (cf : List Nat → Option (List Nat))
    (h : ("gb".data.isPrefixOf (pyLower e) ||
      "windows".data.isPrefixOf (pyLower e)) = true) :
    processFileCN (some e) bytes af cf = (CNAction.analyzed (af bytes), bytes) := by
  simp only [processFileCN, h, if_pos]

/-- Witness for C4: a file detected as "GB18030" is analyzed, not
converted, and keeps its bytes. -/
theorem skip_conversion_on_gb_windows_witness :
    processFileCN (some "GB18030".data) [0xD6, 0xD0] (fun _ => false)
      (fun _ => some []) = (CNAction.analyzed false, [0xD6, 0xD0]) :=
  skip_conversion_on_gb_windows "GB18030".data [0xD6, 0xD0] (fun _ => false)
    (fun _ => some []) (by decide)

/-- C1: at every position holding a Chinese character, an INVALID_ENCODING
finding appears exactly when strict encoding raises, an ENCODING_MISMATCH
finding exactly when encoding succeeds but the strict re-decode differs
from the character, and the round-trip violations are exactly the positions
flagged with one of the two tags.  (`hsafe` records that decoding the bytes
produced by a successful strict encode does not itself raise, which holds
for the codecs the pipeline uses.) -/
theorem roundtrip_findings_exact (cod : Codec) (text : List Char)
    (ln col : Nat) (row : List Char) (c : Char) (hln : 1 ≤ ln)
    (hrow : (splitLines text)[ln - 1]? = some row)
    (hc : row[col]? = some c) (hchin : is_chinese_character c = true)
    (hsafe : ∀ bs, cod.enc c = some bs → ∃ s, cod.dec bs = some s) :
    ((⟨ln, col, c, Reason.INVALID_ENCODING⟩ : Finding) ∈
        (find_chinese_garbled_chars cod text).1 ↔ cod.enc c = none) ∧
    ((⟨ln, col, c, Reason.ENCODING_MISMATCH⟩ : Finding) ∈
        (find_chinese_garbled_chars cod text).1 ↔
      ∃ bs s, cod.enc c = some bs ∧ cod.dec bs = some s ∧ s ≠ [c]) ∧
    ((¬ ∃ bs, cod.enc c = some bs ∧ cod.dec bs = some [c]) ↔
      ((⟨ln, col, c, Reason.INVALID_ENCODING⟩ : Finding) ∈
          (find_chinese_garbled_chars cod text).1 ∨
       (⟨ln, col, c, Reason.ENCODING_MISMATCH⟩ : Finding) ∈
          (find_chinese_garbled_chars cod text).1)) := by
  have hinv : (⟨ln, col, c, Reason.INVALID_ENCODING⟩ : Finding) ∈
      (find_chinese_garbled_chars cod text).1 ↔ cod.enc c = none := by
    rw [findings_at_iff cod text Reason.INVALID_ENCODING hln hrow hc,
      mem_charFindings_iff]
    constructor
    · rintro ⟨-, ⟨-, h | ⟨bs, hbs, hdec⟩⟩ | ⟨hf, -⟩ | ⟨hf, -⟩ | ⟨hf, -⟩⟩
      · exact h
      · obtain ⟨s, hs⟩ := hsafe bs hbs
        rw [hs] at hdec
        exact absurd hdec (Option.noConfusion)
      · simp at hf
      · simp at hf
      · simp at hf
    · intro h
      exact ⟨hchin, Or.inl ⟨rfl, Or.inl h⟩⟩
  have hmis : (⟨ln, col, c, Reason.ENCODING_MISMATCH⟩ : Finding) ∈
      (find_chinese_garbled_chars cod text).1 ↔
      ∃ bs s, cod.enc c = some bs ∧ cod.dec bs = some s ∧ s ≠ [c] := by
    rw [findings_at_iff cod text Reason.ENCODING_MISMATCH hln hrow hc,
      mem_charFindings_iff]
    constructor
    · rintro ⟨-, ⟨hf, -⟩ | ⟨-, h⟩ | ⟨hf, -⟩ | ⟨hf, -⟩⟩
      · simp at hf
      · exact h
      · simp at hf
      · simp at hf
    · intro h
      exact ⟨hchin, Or.inr (Or.inl ⟨rfl, h⟩)⟩
  refine ⟨hinv, hmis, ?_⟩
  cases henc : cod.enc c with
  | none =>
    constructor
    · intro _
      exact Or.inl (hinv.mpr henc)
    · rintro - ⟨bs, hbs, -⟩
      exact Option.noConfusion hbs
  | some bs =>
    obtain ⟨s, hs⟩ := hsafe bs henc
    by_cases hsc : s = [c]
    · apply iff_of_false
      · intro hno
        exact hno ⟨bs, rfl, hsc ▸ hs⟩
      · rintro (hin | hin)
        · rw [hinv] at hin
          rw [henc] at hin
          exact Option.noConfusion hin
        · obtain ⟨bs', s', hbs', hs', hne⟩ := hmis.mp hin
          rw [henc] at hbs'
          have hbseq : bs = bs' := by injection hbs'
          subst hbseq
          rw [hs] at hs'
          have : s = s' := by injection hs'
          exact hne (this ▸ hsc)
    · apply iff_of_true
      · rintro ⟨bs', hbs', hdec'⟩
        have hbseq : bs = bs' := by injection hbs'
        subst hbseq
        rw [hs] at hdec'
        have : s = [c] := by injection hdec'
        exact hsc this
      · exact Or.inr (hmis.mpr ⟨bs, s, henc, hs, hsc⟩)

/-- Witness for C1 at a concrete input: under the utf-8 codec the
character '中' round-trips, so the ENCODING_MISMATCH characterization
holds with both sides false. -/
theorem roundtrip_findings_exact_witness :
    (⟨1, 0, '中', Reason.ENCODING_MISMATCH⟩ : Finding) ∈
        (find_chinese_garbled_chars utf8Codec "中".data).1 ↔
      ∃ bs s, utf8Codec.enc '中' = some bs ∧ utf8Codec.dec bs = some s ∧
        s ≠ ['中'] :=
  (roundtrip_findings_exact utf8Codec "中".data 1 0 "中".data '中'
    (by decide) (by decide) (by decide) (by decide)
    (fun bs h => by
      have h2 : bs = utf8EncodeChar '中' := by
        have h3 : some (utf8EncodeChar '中') = some bs := h
        injection h3 with h4
        exact h4.symm
      subst h2
      exact ⟨['中'], by decide⟩)).2.1

/-- C2 is refuted by the line "ab?cd": it contains the configured garbled
signature '?' (first occurrence at column 2), yet the analyzer returns no
finding at all, because signatures are only looked for at positions
holding a Chinese character. -/
theorem common_pattern_counterexample :
    "?".data ∈ garbledPatterns ∧
    splitLines "ab?cd".data = ["ab?cd".data] ∧
    "?".data <:+: "ab?cd".data ∧
    (find_chinese_garbled_chars idCodec "ab?cd".data).1 = [] :=
  ⟨by decide, by decide, by decide, by decide⟩

/-- C2 (amended): if a line contains an occurrence of a configured garbled
signature substring starting at a position whose character lies in
U+4E00-U+9FFF, then the analyzer returns a COMMON_PATTERN finding whose
column equals that occurrence's index. -/
theorem common_pattern_at_chinese_occurrence (cod : Codec) (text : List Char)
    (ln i : Nat) (row : List Char) (c : Char) (p : List Char)
    (hln : 1 ≤ ln) (hrow : (splitLines text)[ln - 1]? = some row)
    (hc : row[i]? = some c) (hchin : is_chinese_character c = true)
    (hp : p ∈ garbledPatterns) (hocc : (row.drop i).take p.length = p) :
    (⟨ln, i, c, Reason.COMMON_PATTERN⟩ : Finding) ∈
      (find_chinese_garbled_chars cod text).1 := by
  rw [findings_at_iff cod text Reason.COMMON_PATTERN hln hrow hc,
    mem_charFindings_iff]
  refine ⟨hchin, Or.inr (Or.inr (Or.inl ⟨rfl, p, hp, ?_⟩))⟩
  rw [hocc]

/-- Witness for the amended C2: "锟斤拷" occurs at column 0 of its line,
starts with the Chinese character '锟', and the analyzer reports a
COMMON_PATTERN finding there. -/
theorem common_pattern_at_chinese_occurrence_witness :
    (⟨1, 0, '锟', Reason.COMMON_PATTERN⟩ : Finding) ∈
      (find_chinese_garbled_chars idCodec "锟斤拷x".data).1 :=
  common_pattern_at_chinese_occurrence idCodec "锟斤拷x".data 1 0
    "锟斤拷x".data '锟' "锟斤拷".data (by decide) (by decide) (by decide)
    (by decide) (by decide) (by decide)

/-- C3: a Chinese-character position receives an ISOLATED_CHARACTER
finding iff fewer than 2 of the up-to-5 characters in the window from two
before to two after the position (clamped to the line) are Chinese. -/
theorem isolated_finding_iff (cod : Codec) (text : List Char)
    (ln col : Nat) (row : List Char) (c : Char) (hln : 1 ≤ ln)
    (hrow : (splitLines text)[ln - 1]? = some row)
    (hc : row[col]? = some c) (hchin : is_chinese_character c = true) :
    (⟨ln, col, c, Reason.ISOLATED_CHARACTER⟩ : Finding) ∈
        (find_chinese_garbled_chars cod text).1 ↔
      countChinese (contextWindow row col) < 2 := by
  rw [findings_at_iff cod text Reason.ISOLATED_CHARACTER hln hrow hc,
    mem_charFindings_iff]
  constructor
  · rintro ⟨-, ⟨hf, -⟩ | ⟨hf, -⟩ | ⟨hf, -⟩ | ⟨-, h⟩⟩
    · simp at hf
    · simp at hf
    · simp at hf
    · exact h
  · intro h
    exact ⟨hchin, Or.inr (Or.inr (Or.inr ⟨rfl, h⟩))⟩

/-- Witness for C3: in "a中b" the character '中' is the only Chinese
character in its window, so it is flagged ISOLATED_CHARACTER. -/
theorem isolated_finding_iff_witness :
    (⟨1, 1, '中', Reason.ISOLATED_CHARACTER⟩ : Finding) ∈
      (find_chinese_garbled_chars idCodec "a中b".data).1 :=
  (isolated_finding_iff idCodec "a中b".data 1 1 "a中b".data '中'
    (by decide) (by decide) (by decide) (by decide)).mpr (by decide)

/-- C10: every finding of the analyzer, COMMON_PATTERN findings included,
sits at a position whose own character is Chinese; consequently a text
with no Chinese character (even one containing garbled signatures) yields
the empty findings list. -/
theorem findings_only_at_chinese_positions (cod : Codec) (text : List Char) :
    (∀ f ∈ (find_chinese_garbled_chars cod text).1,
      ∃ row, (splitLines text)[f.line - 1]? = some row ∧
        row[f.col]? = some f.ch ∧ is_chinese_character f.ch = true) ∧
    (has_chinese_text text = false →
      (find_chinese_garbled_chars cod text).1 = []) := by
  constructor
  · intro f hf
    obtain ⟨li, row, i, c, hrow, hc, hcf⟩ := (mem_findings_iff cod text f).mp hf
    obtain ⟨h1, h2, h3, h4⟩ := charFindings_shape hcf
    refine ⟨row, ?_, ?_, ?_⟩
    · rw [h1]
      simpa using hrow
    · rw [h2, h3]
      exact hc
    · rw [h3]
      exact h4
  · intro hno
    rw [List.eq_nil_iff_forall_not_mem]
    intro f hf
    obtain ⟨li, row, i, c, hrow, hc, hcf⟩ := (mem_findings_iff cod text f).mp hf
    have hchin := (charFindings_shape hcf).2.2.2
    have hct : c ∈ text :=
      mem_of_mem_splitLines (List.getElem?_mem hrow) (List.getElem?_mem hc)
    have htrue := (has_chinese_text_iff text).mpr ⟨c, hct, hchin⟩
    rw [hno] at htrue
    exact Bool.false_ne_true htrue

/-- Witness for C10: the text "x?z" has no Chinese character, so even
though it contains the '?' signature the analyzer returns nothing. -/
theorem findings_only_at_chinese_positions_witness :
    (find_chinese_garbled_chars idCodec "x?z".data).1 = [] :=
  (findings_only_at_chinese_positions idCodec "x?z".data).2 (by decide)

/-- C9: the text "你好世界" under the utf-8 codec has Chinese text and the
analyzer returns exactly zero findings. -/
theorem scenario_nihao_no_findings :
    has_chinese_text "你好世界".data = true ∧
    (find_chinese_garbled_chars utf8Codec "你好世界".data).1 = [] := by
  exact ⟨by decide, by decide⟩

end GbkDetect
